import Mathlib

/-!
Shallow embedding of the wZEC bridge program
(src/solana-program/programs/wzec-bridge/src/lib.rs).

The embedding keeps the state-transition logic of the six instructions
(initialize, mint_wzec, burn_wzec, update_authority, pause_bridge,
resume_bridge) over the persistent `BridgeState` record.  Machine
integers (u64, u16) are modelled as `Nat` together with the explicit
`checked_*` operations of the Rust standard library, which fail
(return `none`) exactly when the result would leave the 64-bit range.
Public keys are modelled as an opaque numeric identity (`Pubkey := Nat`);
the zero key models `Pubkey::default()`.  Fallible instructions return
`Except BridgeError _`; the external token-custody CPI calls
(`token::mint_to`, `token::burn`) and the `msg!` log lines are outside
the state machine and are not modelled, except that the two values
reported by `burn_wzec`'s log (`fee`, `amount_after_fee`) are returned
alongside the new state.  The host's all-or-nothing transaction model is
encoded by `commitEx`: an instruction that returns an error commits
nothing, leaving the previous state in place.
-/

namespace WzecBridge

/-- Largest value of a Rust u64. -/
def U64_MAX : Nat := 2 ^ 64 - 1

/-- Rust `u64::checked_add`: `none` exactly when the sum leaves 64 bits. -/
def checked_add (a b : Nat) : Option Nat :=
  if a + b ≤ U64_MAX then some (a + b) else none

/-- Rust `u64::checked_mul`: `none` exactly when the product leaves 64 bits. -/
def checked_mul (a b : Nat) : Option Nat :=
  if a * b ≤ U64_MAX then some (a * b) else none

/-- Rust `u64::checked_div`: `none` only on division by zero. -/
def checked_div (a b : Nat) : Option Nat :=
  if b = 0 then none else some (a / b)

/-- Rust `u64::checked_sub`: `none` exactly when the subtrahend exceeds the minuend. -/
def checked_sub (a b : Nat) : Option Nat :=
  if b ≤ a then some (a - b) else none

/-- A Solana public key, modelled as an opaque numeric identity.
`0` models the all-zero key `Pubkey::default()`. -/
abbrev Pubkey := Nat

/-- The persistent singleton account `BridgeState` (lib.rs, `#[account]` struct). -/
structure BridgeState where
  authority : Pubkey
  mint : Pubkey
  fee_percentage : Nat
  paused : Bool
  total_minted : Nat
  total_burned : Nat
  fee_collected : Nat
deriving DecidableEq

/-- The five members of `BridgeError` (lib.rs, `#[error_code]` enum). -/
inductive BridgeError where
  | BridgePaused
  | Unauthorized
  | InvalidAmount
  | InvalidZecAddress
  | Overflow
deriving DecidableEq

/-- `initialize(fee_percentage)` (lib.rs lines 11-26): writes every field of the
fresh `BridgeState`; `authority` is the caller signer's key and `mint` the key
of the provided mint account.  The instruction body has no error path (the
only-once guard is the host's account-init check, outside this logic).
Named `initBridge` here because the source's name `initialize` is a reserved
word in Lean. -/
def initBridge (authority mint : Pubkey) (fee_percentage : Nat) :
    Except BridgeError BridgeState :=
  .ok { authority := authority
        mint := mint
        fee_percentage := fee_percentage
        paused := false
        total_minted := 0
        total_burned := 0
        fee_collected := 0 }

/-- `mint_wzec(amount, zcash_txid)` (lib.rs lines 29-68): `require!` checks in
source order (paused, authority, amount), then the CPI mint (not modelled),
then `total_minted = total_minted.checked_add(amount)` with `Overflow` on
failure.  `zcash_txid` is only logged, never inspected. -/
def mint_wzec (s : BridgeState) (caller : Pubkey) (amount : Nat)
    (_zcash_txid : String) : Except BridgeError BridgeState :=
  if s.paused then .error .BridgePaused
  else if caller = s.authority then
    if 0 < amount then
      match checked_add s.total_minted amount with
      | some t => .ok { s with total_minted := t }
      | none => .error .Overflow
    else .error .InvalidAmount
  else .error .Unauthorized

/-- Character-list matcher for Rust `str::starts_with` on the address bytes. -/
def strStartsWith : List Char → List Char → Bool
  | _, [] => true
  | [], _ :: _ => false
  | c :: cs, d :: ds => c = d && strStartsWith cs ds

/-- The address test of lib.rs lines 85-88:
`zec_address.starts_with("ztestsapling1") && zec_address.len() >= 78`. -/
def zecAddrOk (zec_address : String) : Bool :=
  strStartsWith zec_address.data "ztestsapling1".data
    && 78 ≤ zec_address.data.length

/-- The fee computation of lib.rs lines 91-99, exactly as chained there:
`amount.checked_mul(fee_percentage).ok_or(Overflow)?.checked_div(10000)
.ok_or(Overflow)?` then `amount.checked_sub(fee).ok_or(Overflow)?`.
Returns `(fee, amount_after_fee)`. -/
def compute_fee (amount fee_percentage : Nat) :
    Except BridgeError (Nat × Nat) :=
  match checked_mul amount fee_percentage with
  | none => .error .Overflow
  | some m =>
    match checked_div m 10000 with
    | none => .error .Overflow
    | some fee =>
      match checked_sub amount fee with
      | none => .error .Overflow
      | some amount_after_fee => .ok (fee, amount_after_fee)

/-- `burn_wzec(amount, zec_address)` (lib.rs lines 71-128): `require!` checks
in source order (paused, amount, address), the fee computation, the CPI burn
(not modelled), then the two overflow-checked counter additions.  The `user`
signer is never compared against stored state; it only authorizes the CPI
burn of the user's own tokens.  The result carries the new state and the two
reported values `fee` and `amount_after_fee` (lib.rs lines 124-125). -/
def burn_wzec (s : BridgeState) (_user : Pubkey) (amount : Nat)
    (zec_address : String) :
    Except BridgeError (BridgeState × Nat × Nat) :=
  if s.paused then .error .BridgePaused
  else if 0 < amount then
    if zecAddrOk zec_address then
      match compute_fee amount s.fee_percentage with
      | .error e => .error e
      | .ok (fee, amount_after_fee) =>
        match checked_add s.total_burned amount with
        | none => .error .Overflow
        | some tb =>
          match checked_add s.fee_collected fee with
          | none => .error .Overflow
          | some fc =>
            .ok ({ s with total_burned := tb, fee_collected := fc },
                 fee, amount_after_fee)
    else .error .InvalidZecAddress
  else .error .InvalidAmount

/-- `update_authority(new_authority)` (lib.rs lines 131-146): only the current
authority may call; the new value replaces the old with no further
validation. -/
def update_authority (s : BridgeState) (caller new_authority : Pubkey) :
    Except BridgeError BridgeState :=
  if caller = s.authority then .ok { s with authority := new_authority }
  else .error .Unauthorized

/-- `pause_bridge()` (lib.rs lines 149-163): authority-only; sets `paused`. -/
def pause_bridge (s : BridgeState) (caller : Pubkey) :
    Except BridgeError BridgeState :=
  if caller = s.authority then .ok { s with paused := true }
  else .error .Unauthorized

/-- `resume_bridge()` (lib.rs lines 166-180): authority-only; clears `paused`. -/
def resume_bridge (s : BridgeState) (caller : Pubkey) :
    Except BridgeError BridgeState :=
  if caller = s.authority then .ok { s with paused := false }
  else .error .Unauthorized

/-- One invocation of a post-initialization instruction, with its caller
identity and arguments. -/
inductive Op where
  | mint (caller : Pubkey) (amount : Nat) (txid : String)
  | burn (user : Pubkey) (amount : Nat) (addr : String)
  | updateAuth (caller : Pubkey) (new_authority : Pubkey)
  | pause (caller : Pubkey)
  | resume (caller : Pubkey)

/-- Dispatch an `Op` to the corresponding instruction, keeping only the state
component of the result. -/
def applyOp (s : BridgeState) (op : Op) : Except BridgeError BridgeState :=
  match op with
  | .mint c a t => mint_wzec s c a t
  | .burn u a d => (burn_wzec s u a d).map (·.1)
  | .updateAuth c n => update_authority s c n
  | .pause c => pause_bridge s c
  | .resume c => resume_bridge s c

/-- The host's all-or-nothing transaction model: a successful instruction
commits its new state, a failed one commits nothing and the previous state
survives unchanged. -/
def commitEx (s : BridgeState) (r : Except BridgeError BridgeState) :
    BridgeState :=
  match r with
  | .ok s2 => s2
  | .error _ => s

/-- The state observable after one call, under the host transaction model. -/
def runOp (s : BridgeState) (op : Op) : BridgeState :=
  commitEx s (applyOp s op)

/-- The state observable after a finite sequence of calls. -/
def runOps (s : BridgeState) (ops : List Op) : BridgeState :=
  ops.foldl runOp s


/-! ### Characterizations of the checked arithmetic and of instruction success -/

/-- Success of `checked_add` forces the in-range sum. -/
theorem checked_add_some (a b c : Nat) (h : checked_add a b = some c) :
    c = a + b ∧ a + b ≤ U64_MAX := by
  unfold checked_add at h
  split_ifs at h
  all_goals simp_all

/-- Success of `checked_mul` forces the in-range product. -/
theorem checked_mul_some (a b c : Nat) (h : checked_mul a b = some c) :
    c = a * b ∧ a * b ≤ U64_MAX := by
  unfold checked_mul at h
  split_ifs at h
  all_goals simp_all

/-- Success of `checked_div` forces the quotient and a non-zero divisor. -/
theorem checked_div_some (a b c : Nat) (h : checked_div a b = some c) :
    c = a / b ∧ b ≠ 0 := by
  unfold checked_div at h
  split_ifs at h
  all_goals simp_all

/-- Success of `checked_sub` forces the difference with no borrow. -/
theorem checked_sub_some (a b c : Nat) (h : checked_sub a b = some c) :
    c = a - b ∧ b ≤ a := by
  unfold checked_sub at h
  split_ifs at h
  all_goals simp_all

/-- A successful fee computation returns the floored basis-point fee and the
complementary amount. -/
theorem compute_fee_ok (amount fp fee aaf : Nat)
    (h : compute_fee amount fp = .ok (fee, aaf)) :
    fee = amount * fp / 10000 ∧ fee ≤ amount ∧ aaf = amount - fee := by
  unfold compute_fee at h
  cases hm : checked_mul amount fp with
  | none => rw [hm] at h; exact absurd h (by simp)
  | some m =>
    rw [hm] at h
    dsimp only [] at h
    cases hd : checked_div m 10000 with
    | none => rw [hd] at h; exact absurd h (by simp)
    | some f =>
      rw [hd] at h
      dsimp only [] at h
      cases hs : checked_sub amount f with
      | none => rw [hs] at h; exact absurd h (by simp)
      | some a2 =>
        rw [hs] at h
        dsimp only [] at h
        obtain ⟨hm1, hm2⟩ := checked_mul_some _ _ _ hm
        obtain ⟨hd1, hd2⟩ := checked_div_some _ _ _ hd
        obtain ⟨hs1, hs2⟩ := checked_sub_some _ _ _ hs
        simp only [Except.ok.injEq, Prod.mk.injEq] at h
        obtain ⟨hf, ha⟩ := h
        subst hf; subst ha
        subst hd1; subst hm1; subst hs1
        exact ⟨rfl, hs2, rfl⟩

/-- The only error the fee computation can produce is `Overflow`. -/
theorem compute_fee_error (amount fp : Nat) (e : BridgeError)
    (h : compute_fee amount fp = .error e) : e = .Overflow := by
  unfold compute_fee at h
  cases hm : checked_mul amount fp with
  | none =>
    rw [hm] at h
    dsimp only [] at h
    simp only [Except.error.injEq] at h
    exact h.symm
  | some m =>
    rw [hm] at h
    dsimp only [] at h
    cases hd : checked_div m 10000 with
    | none =>
      rw [hd] at h
      dsimp only [] at h
      simp only [Except.error.injEq] at h
      exact h.symm
    | some f =>
      rw [hd] at h
      dsimp only [] at h
      cases hs : checked_sub amount f with
      | none =>
        rw [hs] at h
        dsimp only [] at h
        simp only [Except.error.injEq] at h
        exact h.symm
      | some a2 =>
        rw [hs] at h
        dsimp only [] at h
        exact absurd h (by simp)

/-- Inversion of a successful mint: all three guards held and only
`total_minted` changed, by the checked addition. -/
theorem mint_wzec_ok (s : BridgeState) (caller : Pubkey) (amount : Nat)
    (t : String) (s2 : BridgeState)
    (h : mint_wzec s caller amount t = .ok s2) :
    s.paused = false ∧ caller = s.authority ∧ 0 < amount ∧
    s.total_minted + amount ≤ U64_MAX ∧
    s2 = { s with total_minted := s.total_minted + amount } := by
  unfold mint_wzec at h
  by_cases hp : s.paused
  · rw [if_pos hp] at h; exact absurd h (by simp)
  · rw [if_neg hp] at h
    by_cases hc : caller = s.authority
    · rw [if_pos hc] at h
      by_cases ha : 0 < amount
      · rw [if_pos ha] at h
        cases hadd : checked_add s.total_minted amount with
        | none => rw [hadd] at h; exact absurd h (by simp)
        | some tm =>
          rw [hadd] at h
          dsimp only [] at h
          obtain ⟨h1, h2⟩ := checked_add_some _ _ _ hadd
          simp only [Except.ok.injEq] at h
          subst h1
          exact ⟨by simpa using hp, hc, ha, h2, h.symm⟩
      · rw [if_neg ha] at h; exact absurd h (by simp)
    · rw [if_neg hc] at h; exact absurd h (by simp)

/-- Inversion of a successful burn: all three guards held, the fee computation
succeeded, and only `total_burned` and `fee_collected` changed, by the two
checked additions. -/
theorem burn_wzec_ok (s : BridgeState) (u : Pubkey) (amount : Nat)
    (addr : String) (s2 : BridgeState) (fee aaf : Nat)
    (h : burn_wzec s u amount addr = .ok (s2, fee, aaf)) :
    s.paused = false ∧ 0 < amount ∧ zecAddrOk addr = true ∧
    compute_fee amount s.fee_percentage = .ok (fee, aaf) ∧
    s.total_burned + amount ≤ U64_MAX ∧ s.fee_collected + fee ≤ U64_MAX ∧
    s2 = { s with total_burned := s.total_burned + amount,
                  fee_collected := s.fee_collected + fee } := by
  unfold burn_wzec at h
  by_cases hp : s.paused
  · rw [if_pos hp] at h; exact absurd h (by simp)
  · rw [if_neg hp] at h
    by_cases ha : 0 < amount
    · rw [if_pos ha] at h
      by_cases hz : zecAddrOk addr
      · rw [if_pos hz] at h
        cases hcf : compute_fee amount s.fee_percentage with
        | error e => rw [hcf] at h; exact absurd h (by simp)
        | ok p =>
          obtain ⟨f, a2⟩ := p
          rw [hcf] at h
          dsimp only [] at h
          cases hb : checked_add s.total_burned amount with
          | none => rw [hb] at h; exact absurd h (by simp)
          | some tb =>
            rw [hb] at h
            dsimp only [] at h
            cases hcol : checked_add s.fee_collected f with
            | none => rw [hcol] at h; exact absurd h (by simp)
            | some fc =>
              rw [hcol] at h
              dsimp only [] at h
              obtain ⟨hb1, hb2⟩ := checked_add_some _ _ _ hb
              obtain ⟨hc1, hc2⟩ := checked_add_some _ _ _ hcol
              simp only [Except.ok.injEq, Prod.mk.injEq] at h
              obtain ⟨hs2, hf, haaf⟩ := h
              subst hf; subst haaf; subst hb1; subst hc1
              exact ⟨by simpa using hp, ha, hz, rfl, hb2, hc2, hs2.symm⟩
      · rw [if_neg hz] at h; exact absurd h (by simp)
    · rw [if_neg ha] at h; exact absurd h (by simp)

/-! ### Concrete instances used by witnesses and counterexamples -/

/-- A valid testnet shielded address of length exactly 78. -/
def addr78 : String := "ztestsapling1qqqqqqqqqqqqqqqqqqqqqqqqqqqqqqqqqqqqqqqqqqqqqqqqqqqqqqqqqqqqqqqqq"

/-- The state committed by the init instruction with caller key `1`, mint key
`2` and a 1% fee (100 basis points). -/
def exSt : BridgeState :=
  { authority := 1, mint := 2, fee_percentage := 100, paused := false,
    total_minted := 0, total_burned := 0, fee_collected := 0 }

/-- `exSt` after `pause_bridge`. -/
def pausedSt : BridgeState := { exSt with paused := true }

/-- `exSt` with a 200% fee rate, above the 10000-basis-point bound that no
instruction validates. -/
def feeSt : BridgeState := { exSt with fee_percentage := 20000 }

/-! ### Per-operation and per-sequence facts under the host commit model -/

/-- No single committed call decreases any of the three counters. -/
theorem runOp_counters_mono (s : BridgeState) (op : Op) :
    s.total_minted ≤ (runOp s op).total_minted ∧
    s.total_burned ≤ (runOp s op).total_burned ∧
    s.fee_collected ≤ (runOp s op).fee_collected := by
  cases op with
  | mint c a t =>
    simp only [runOp, applyOp]
    cases h : mint_wzec s c a t with
    | error e => simp [commitEx, h]
    | ok s2 =>
      obtain ⟨_, _, _, _, hs2⟩ := mint_wzec_ok _ _ _ _ _ h
      subst hs2
      simp [commitEx, h]
  | burn u a d =>
    simp only [runOp, applyOp]
    cases h : burn_wzec s u a d with
    | error e => simp [commitEx, Except.map, h]
    | ok p =>
      obtain ⟨s2, fee, aaf⟩ := p
      obtain ⟨_, _, _, _, _, _, hs2⟩ := burn_wzec_ok _ _ _ _ _ _ _ h
      subst hs2
      simp [commitEx, Except.map, h]
  | updateAuth c n =>
    simp only [runOp, applyOp, update_authority]
    split_ifs
    all_goals simp [commitEx]
  | pause c =>
    simp only [runOp, applyOp, pause_bridge]
    split_ifs
    all_goals simp [commitEx]
  | resume c =>
    simp only [runOp, applyOp, resume_bridge]
    split_ifs
    all_goals simp [commitEx]

/-- No committed sequence of calls decreases any of the three counters. -/
theorem runOps_counters_mono (ops : List Op) : ∀ s : BridgeState,
    s.total_minted ≤ (runOps s ops).total_minted ∧
    s.total_burned ≤ (runOps s ops).total_burned ∧
    s.fee_collected ≤ (runOps s ops).fee_collected := by
  induction ops with
  | nil =>
    intro s
    simp [runOps]
  | cons op rest ih =>
    intro s
    have h1 := runOp_counters_mono s op
    have h2 := ih (runOp s op)
    simp only [runOps, List.foldl] at h2 ⊢
    omega

/-- The side condition of the amended C7: the call, if it is an authority
replacement, proposes a non-zero key. -/
def opNewAuthorityNonzero : Op → Prop
  | .updateAuth _ n => n ≠ 0
  | _ => True

/-- A single committed call keeps a non-zero authority non-zero, provided any
authority replacement it performs proposes a non-zero key. -/
theorem runOp_authority_nonzero (s : BridgeState) (op : Op)
    (h0 : s.authority ≠ 0) (hop : opNewAuthorityNonzero op) :
    (runOp s op).authority ≠ 0 := by
  cases op with
  | mint c a t =>
    simp only [runOp, applyOp]
    cases h : mint_wzec s c a t with
    | error e => simpa [commitEx, h] using h0
    | ok s2 =>
      obtain ⟨_, _, _, _, hs2⟩ := mint_wzec_ok _ _ _ _ _ h
      subst hs2
      simpa [commitEx, h] using h0
  | burn u a d =>
    simp only [runOp, applyOp]
    cases h : burn_wzec s u a d with
    | error e => simpa [commitEx, Except.map, h] using h0
    | ok p =>
      obtain ⟨s2, fee, aaf⟩ := p
      obtain ⟨_, _, _, _, _, _, hs2⟩ := burn_wzec_ok _ _ _ _ _ _ _ h
      subst hs2
      simpa [commitEx, Except.map, h] using h0
  | updateAuth c n =>
    simp only [runOp, applyOp, update_authority]
    split_ifs
    · simpa [commitEx] using hop
    · simpa [commitEx] using h0
  | pause c =>
    simp only [runOp, applyOp, pause_bridge]
    split_ifs
    all_goals simpa [commitEx] using h0
  | resume c =>
    simp only [runOp, applyOp, resume_bridge]
    split_ifs
    all_goals simpa [commitEx] using h0

/-- A committed sequence of calls keeps a non-zero authority non-zero,
provided every authority replacement in it proposes a non-zero key. -/
theorem runOps_authority_nonzero (ops : List Op) : ∀ s : BridgeState,
    s.authority ≠ 0 → (∀ op ∈ ops, opNewAuthorityNonzero op) →
    (runOps s ops).authority ≠ 0 := by
  induction ops with
  | nil =>
    intro s h0 _
    simpa [runOps] using h0
  | cons op rest ih =>
    intro s h0 hall
    have h1 := runOp_authority_nonzero s op h0 (hall op (by simp))
    have h2 := ih (runOp s op) h1 (fun o ho => hall o (by simp [ho]))
    simpa only [runOps, List.foldl] using h2

/-! ### The claims -/

/-- C1: whenever `burn_wzec` succeeds on any `(amount, fee_percentage)` pair
within u64/u16 bounds, the reported fee equals
`floor(amount * fee_percentage / 10000)` and the reported `amount_after_fee`
satisfies `amount_after_fee + fee = amount`. -/
theorem c1_burn_fee_and_amount_after_fee (s : BridgeState) (u : Pubkey)
    (amount : Nat) (addr : String) (s2 : BridgeState) (fee aaf : Nat)
    (_hA : amount ≤ U64_MAX) (_hF : s.fee_percentage ≤ 2 ^ 16 - 1)
    (h : burn_wzec s u amount addr = .ok (s2, fee, aaf)) :
    fee = amount * s.fee_percentage / 10000 ∧ aaf + fee = amount := by
  obtain ⟨_, _, _, hcf, _, _, _⟩ := burn_wzec_ok _ _ _ _ _ _ _ h
  obtain ⟨h1, h2, h3⟩ := compute_fee_ok _ _ _ _ hcf
  subst h1
  subst h3
  exact ⟨rfl, by omega⟩

/-- Witness for C1: a concrete successful burn of 10000 at 100 basis points
reports fee 100 and amount_after_fee 9900, which sum back to 10000. -/
theorem c1_witness :
    burn_wzec exSt 7 10000 addr78 =
      .ok ({ exSt with total_burned := 10000, fee_collected := 100 },
           100, 9900) ∧
    (100 = 10000 * exSt.fee_percentage / 10000 ∧ 9900 + 100 = 10000) := by
  constructor
  · rfl
  · exact c1_burn_fee_and_amount_after_fee exSt 7 10000 addr78
      { exSt with total_burned := 10000, fee_collected := 100 } 100 9900
      (by decide) (by decide) (by rfl)

/-- C2: any instruction call that returns one of the five errors leaves every
field of `BridgeState` unchanged in the committed state (the all-or-nothing
host model, encoded by `commitEx` inside `runOp`, discards the aborted call);
the init instruction has no error path at all. -/
theorem c2_error_no_partial_state (s : BridgeState) (op : Op)
    (e : BridgeError) (h : applyOp s op = .error e) :
    (runOp s op).authority = s.authority ∧
    (runOp s op).mint = s.mint ∧
    (runOp s op).fee_percentage = s.fee_percentage ∧
    (runOp s op).paused = s.paused ∧
    (runOp s op).total_minted = s.total_minted ∧
    (runOp s op).total_burned = s.total_burned ∧
    (runOp s op).fee_collected = s.fee_collected ∧
    (∀ (a m fp : Nat) (e2 : BridgeError), initBridge a m fp ≠ .error e2) := by
  unfold runOp
  rw [h]
  refine ⟨rfl, rfl, rfl, rfl, rfl, rfl, rfl, ?_⟩
  intro a m fp e2 hinit
  exact absurd hinit (by simp [initBridge])

/-- Witness for C2: a mint against the paused state fails with `BridgePaused`
and the committed `total_minted` is untouched. -/
theorem c2_witness :
    applyOp pausedSt (Op.mint 1 5 "t") = .error .BridgePaused ∧
    (runOp pausedSt (Op.mint 1 5 "t")).total_minted = pausedSt.total_minted := by
  constructor
  · rfl
  · exact (c2_error_no_partial_state pausedSt (Op.mint 1 5 "t")
      .BridgePaused (by rfl)).2.2.2.2.1

/-- C6: the init instruction succeeds for every `fee_percentage`, with no
upper-bound validation, and writes exactly: authority and mint from the
caller context, `fee_percentage` verbatim, `paused = false`, and all three
counters zero. -/
theorem c6_init_fields (a m fp : Nat) :
    initBridge a m fp =
      .ok { authority := a, mint := m, fee_percentage := fp, paused := false,
            total_minted := 0, total_burned := 0, fee_collected := 0 } := rfl

/-- C8: `burn_wzec` never reads the caller identity: its whole result is the
same function of state and arguments for any two callers, and it never fails
with `Unauthorized`. -/
theorem c8_burn_ignores_caller :
    (∀ (s : BridgeState) (u1 u2 : Pubkey) (a : Nat) (d : String),
        burn_wzec s u1 a d = burn_wzec s u2 a d)
    ∧ (∀ (s : BridgeState) (u : Pubkey) (a : Nat) (d : String),
        burn_wzec s u a d ≠ .error .Unauthorized) := by
  constructor
  · intro s u1 u2 a d
    rfl
  · intro s u a d h
    unfold burn_wzec at h
    by_cases hp : s.paused
    · rw [if_pos hp] at h
      exact absurd h (by simp)
    · rw [if_neg hp] at h
      by_cases ha : 0 < a
      · rw [if_pos ha] at h
        by_cases hz : zecAddrOk d
        · rw [if_pos hz] at h
          cases hcf : compute_fee a s.fee_percentage with
          | error e =>
            rw [hcf] at h
            dsimp only [] at h
            have := compute_fee_error _ _ _ hcf
            subst this
            exact absurd h (by simp)
          | ok p =>
            obtain ⟨f, a2⟩ := p
            rw [hcf] at h
            dsimp only [] at h
            cases hb : checked_add s.total_burned a with
            | none => rw [hb] at h; exact absurd h (by simp)
            | some tb =>
              rw [hb] at h
              dsimp only [] at h
              cases hcol : checked_add s.fee_collected f with
              | none => rw [hcol] at h; exact absurd h (by simp)
              | some fc =>
                rw [hcol] at h
                dsimp only [] at h
                exact absurd h (by simp)
        · rw [if_neg hz] at h
          exact absurd h (by simp)
      · rw [if_neg ha] at h
        exact absurd h (by simp)

/-- Witness for C8 at concrete inputs: two different callers get the very
same outcome, and a caller distinct from the stored authority is never told
`Unauthorized` by the burn instruction. -/
theorem c8_witness :
    burn_wzec exSt 3 10000 addr78 = burn_wzec exSt 4 10000 addr78 ∧
    burn_wzec exSt 5 0 "x" ≠ .error .Unauthorized := by
  constructor
  · exact c8_burn_ignores_caller.1 exSt 3 4 10000 addr78
  · exact c8_burn_ignores_caller.2 exSt 5 0 "x"

/-- C3: across every committed sequence of calls the three counters never
decrease; a mint whose addition would leave 64 bits fails with `Overflow`
instead of wrapping; and concretely, minting `u64::MAX` twice succeeds once
and fails the second call with `Overflow`, leaving `total_minted` at
`u64::MAX`. -/
theorem c3_counters_monotone_and_mint_overflow :
    (∀ (s : BridgeState) (ops : List Op),
        s.total_minted ≤ (runOps s ops).total_minted ∧
        s.total_burned ≤ (runOps s ops).total_burned ∧
        s.fee_collected ≤ (runOps s ops).fee_collected)
    ∧ (∀ (s : BridgeState) (c : Pubkey) (a : Nat) (t : String),
        s.paused = false → c = s.authority → 0 < a →
        U64_MAX < s.total_minted + a →
        mint_wzec s c a t = .error .Overflow)
    ∧ mint_wzec exSt 1 U64_MAX "tx" = .ok { exSt with total_minted := U64_MAX }
    ∧ mint_wzec { exSt with total_minted := U64_MAX } 1 U64_MAX "tx" =
        .error .Overflow
    ∧ (runOps exSt [Op.mint 1 U64_MAX "tx", Op.mint 1 U64_MAX "tx"]).total_minted
        = U64_MAX := by
  refine ⟨fun s ops => runOps_counters_mono ops s, ?_, by rfl, by rfl, by rfl⟩
  intro s c a t hp hc ha hov
  unfold mint_wzec
  rw [if_neg (by simp [hp]), if_pos hc, if_pos ha]
  unfold checked_add
  rw [if_neg (by omega)]

/-- Witness for C3: the overflow conjunct applied at a concrete state whose
`total_minted` is already `u64::MAX`. -/
theorem c3_witness :
    ({ exSt with total_minted := U64_MAX } : BridgeState).paused = false ∧
    (1 : Pubkey) = ({ exSt with total_minted := U64_MAX } : BridgeState).authority ∧
    (0 : Nat) < 10 ∧
    U64_MAX < ({ exSt with total_minted := U64_MAX } : BridgeState).total_minted + 10 ∧
    mint_wzec { exSt with total_minted := U64_MAX } 1 10 "t" = .error .Overflow := by
  refine ⟨by rfl, by rfl, by decide, by decide, ?_⟩
  exact c3_counters_monotone_and_mint_overflow.2.1
    { exSt with total_minted := U64_MAX } 1 10 "t" (by rfl) (by rfl)
    (by decide) (by decide)

/-- C4: the guards run in source order and the first failing guard names the
error: mint checks paused, then authority, then amount; burn checks paused,
then amount, then address; in particular a paused bridge answers
`BridgePaused` to both instructions whatever the other arguments are. -/
theorem c4_precondition_order :
    (∀ (s : BridgeState) (c : Pubkey) (a : Nat) (t : String),
        s.paused = true → mint_wzec s c a t = .error .BridgePaused)
    ∧ (∀ (s : BridgeState) (u : Pubkey) (a : Nat) (d : String),
        s.paused = true → burn_wzec s u a d = .error .BridgePaused)
    ∧ (∀ (s : BridgeState) (c : Pubkey) (a : Nat) (t : String),
        s.paused = false → c ≠ s.authority →
        mint_wzec s c a t = .error .Unauthorized)
    ∧ (∀ (s : BridgeState) (c : Pubkey) (t : String),
        s.paused = false → c = s.authority →
        mint_wzec s c 0 t = .error .InvalidAmount)
    ∧ (∀ (s : BridgeState) (u : Pubkey) (d : String),
        s.paused = false → burn_wzec s u 0 d = .error .InvalidAmount)
    ∧ (∀ (s : BridgeState) (u : Pubkey) (a : Nat) (d : String),
        s.paused = false → 0 < a → zecAddrOk d = false →
        burn_wzec s u a d = .error .InvalidZecAddress) := by
  refine ⟨?_, ?_, ?_, ?_, ?_, ?_⟩
  · intro s c a t hp
    unfold mint_wzec
    rw [if_pos hp]
  · intro s u a d hp
    unfold burn_wzec
    rw [if_pos hp]
  · intro s c a t hp hc
    unfold mint_wzec
    rw [if_neg (by simp [hp]), if_neg hc]
  · intro s c t hp hc
    unfold mint_wzec
    rw [if_neg (by simp [hp]), if_pos hc, if_neg (by simp)]
  · intro s u d hp
    unfold burn_wzec
    rw [if_neg (by simp [hp]), if_neg (by simp)]
  · intro s u a d hp ha hz
    unfold burn_wzec
    rw [if_neg (by simp [hp]), if_pos ha, if_neg (by simp [hz])]

/-- Witness for C4 at the claim's own example: paused with amount 1 answers
`BridgePaused`, not `InvalidAmount`, for both instructions. -/
theorem c4_witness :
    pausedSt.paused = true ∧
    mint_wzec pausedSt 1 1 "t" = .error .BridgePaused ∧
    burn_wzec pausedSt 1 1 "x" = .error .BridgePaused := by
  refine ⟨rfl, ?_, ?_⟩
  · exact c4_precondition_order.1 pausedSt 1 1 "t" rfl
  · exact c4_precondition_order.2.1 pausedSt 1 1 "x" rfl

/-- C5: once the three burn guards pass, each arithmetic step is
overflow-checked: a product above `u64::MAX` fails the multiplication step
with `Overflow`, and a computed fee above the amount (as with
`fee_percentage = 20000`) fails the subtraction step with `Overflow`. -/
theorem c5_burn_overflow_checks :
    (∀ (s : BridgeState) (u : Pubkey) (a : Nat) (d : String),
        s.paused = false → 0 < a → zecAddrOk d = true →
        U64_MAX < a * s.fee_percentage →
        burn_wzec s u a d = .error .Overflow)
    ∧ (∀ (s : BridgeState) (u : Pubkey) (a : Nat) (d : String),
        s.paused = false → 0 < a → zecAddrOk d = true →
        a * s.fee_percentage ≤ U64_MAX →
        a < a * s.fee_percentage / 10000 →
        burn_wzec s u a d = .error .Overflow) := by
  constructor
  · intro s u a d hp ha hz hov
    have hcf : compute_fee a s.fee_percentage = .error .Overflow := by
      unfold compute_fee checked_mul
      rw [if_neg (by omega)]
    unfold burn_wzec
    rw [if_neg (by simp [hp]), if_pos ha, if_pos hz, hcf]
  · intro s u a d hp ha hz hmul hfee
    have hcf : compute_fee a s.fee_percentage = .error .Overflow := by
      unfold compute_fee checked_mul checked_div checked_sub
      rw [if_pos hmul]
      dsimp only []
      rw [if_neg (by decide : ¬((10000 : Nat) = 0))]
      dsimp only []
      rw [if_neg (by omega)]
    unfold burn_wzec
    rw [if_neg (by simp [hp]), if_pos ha, if_pos hz, hcf]

/-- Witness for C5: the spec's boundary example, `fee_percentage = 20000` on
`amount = 100`, fails the subtraction step with `Overflow`; and a huge
amount at the largest u16 fee rate fails the multiplication step with
`Overflow`. -/
theorem c5_witness :
    feeSt.paused = false ∧ (0 : Nat) < 100 ∧ zecAddrOk addr78 = true ∧
    100 * feeSt.fee_percentage ≤ U64_MAX ∧
    100 < 100 * feeSt.fee_percentage / 10000 ∧
    burn_wzec feeSt 1 100 addr78 = .error .Overflow ∧
    U64_MAX < 2 ^ 63 * ({ exSt with fee_percentage := 65535 } : BridgeState).fee_percentage ∧
    burn_wzec { exSt with fee_percentage := 65535 } 1 (2 ^ 63) addr78 =
      .error .Overflow := by
  refine ⟨by rfl, by decide, by decide, by decide, by decide, ?_, by decide, ?_⟩
  · exact c5_burn_overflow_checks.2 feeSt 1 100 addr78 (by rfl) (by decide)
      (by decide) (by decide) (by decide)
  · exact c5_burn_overflow_checks.1 { exSt with fee_percentage := 65535 } 1
      (2 ^ 63) addr78 (by rfl) (by decide) (by decide) (by decide)

/-- C7 counterexample: the claim fails on the code.  From the state committed
by the init instruction (authority key `1`), a successful `update_authority`
call by that authority with `new_authority = 0` is accepted — nothing
validates the new key — and the reachable committed state has the zero
authority. -/
theorem c7_counterexample_zero_authority :
    initBridge 1 2 100 = .ok exSt ∧
    applyOp exSt (Op.updateAuth 1 0) = .ok { exSt with authority := 0 } ∧
    (runOps exSt [Op.updateAuth 1 0]).authority = 0 :=
  ⟨rfl, rfl, rfl⟩

/-- C7 (amended): `update_authority` accepts every proposed key, the zero key
included, so non-zeroness of `authority` is preserved across committed
sequences only under the extra side condition that the state starts with a
non-zero authority and every authority replacement proposes a non-zero
key. -/
theorem c7_amended_authority_nonzero :
    (∀ (s : BridgeState) (c n : Pubkey), c = s.authority →
        update_authority s c n = .ok { s with authority := n })
    ∧ (∀ (s : BridgeState) (ops : List Op), s.authority ≠ 0 →
        (∀ op ∈ ops, opNewAuthorityNonzero op) →
        (runOps s ops).authority ≠ 0) := by
  constructor
  · intro s c n hc
    unfold update_authority
    rw [if_pos hc]
  · intro s ops h0 hall
    exact runOps_authority_nonzero ops s h0 hall

/-- Witness for the amended C7: a two-call sequence with a non-zero
replacement key keeps the authority non-zero, and `update_authority` is seen
accepting the zero key when applied to it. -/
theorem c7_witness :
    ((1 : Pubkey) = exSt.authority ∧
      update_authority exSt 1 0 = .ok { exSt with authority := 0 }) ∧
    (exSt.authority ≠ 0 ∧
      (runOps exSt [Op.updateAuth 1 9, Op.pause 9]).authority ≠ 0) := by
  refine ⟨⟨rfl, ?_⟩, by decide, ?_⟩
  · exact c7_amended_authority_nonzero.1 exSt 1 0 rfl
  · exact c7_amended_authority_nonzero.2 exSt [Op.updateAuth 1 9, Op.pause 9]
      (by decide) (by
        intro op hop
        simp only [List.mem_cons, List.mem_singleton] at hop
        rcases hop with h | h | h
        · subst h; simp [opNewAuthorityNonzero]
        · subst h; simp [opNewAuthorityNonzero]
        · cases h)

/-- C9: pausing and then resuming, both by the stored authority, commits a
state equal to the pre-pause state on every field except `paused`, which
ends `false`. -/
theorem c9_pause_resume_roundtrip (s : BridgeState) (c : Pubkey)
    (h : c = s.authority) :
    pause_bridge s c = .ok { s with paused := true } ∧
    resume_bridge { s with paused := true } c = .ok { s with paused := false } ∧
    runOps s [Op.pause c, Op.resume c] = { s with paused := false } ∧
    (runOps s [Op.pause c, Op.resume c]).authority = s.authority ∧
    (runOps s [Op.pause c, Op.resume c]).mint = s.mint ∧
    (runOps s [Op.pause c, Op.resume c]).fee_percentage = s.fee_percentage ∧
    (runOps s [Op.pause c, Op.resume c]).total_minted = s.total_minted ∧
    (runOps s [Op.pause c, Op.resume c]).total_burned = s.total_burned ∧
    (runOps s [Op.pause c, Op.resume c]).fee_collected = s.fee_collected ∧
    (runOps s [Op.pause c, Op.resume c]).paused = false := by
  subst h
  have h1 : runOps s [Op.pause s.authority, Op.resume s.authority] =
      { s with paused := false } := by
    simp [runOps, runOp, applyOp, pause_bridge, resume_bridge, commitEx]
  refine ⟨by simp [pause_bridge], by simp [resume_bridge], h1, ?_, ?_, ?_, ?_, ?_, ?_, ?_⟩
  all_goals rw [h1]

/-- Witness for C9 at the concrete initialized state, paused and resumed by
its authority key `1`. -/
theorem c9_witness :
    (1 : Pubkey) = exSt.authority ∧
    runOps exSt [Op.pause 1, Op.resume 1] = { exSt with paused := false } := by
  refine ⟨rfl, ?_⟩
  exact (c9_pause_resume_roundtrip exSt 1 rfl).2.2.1

/-- C10: with `fee_percentage ≤ 10000` and a product inside u64 range, the
floored fee never exceeds the amount, so the fee computation — and with it
the subtraction step of `burn_wzec` — succeeds rather than failing with
`Overflow`. -/
theorem c10_fee_le_amount (amount fp : Nat) (h1 : fp ≤ 10000)
    (h2 : amount * fp ≤ U64_MAX) :
    amount * fp / 10000 ≤ amount ∧
    compute_fee amount fp =
      .ok (amount * fp / 10000, amount - amount * fp / 10000) := by
  have hfee : amount * fp / 10000 ≤ amount := by
    calc amount * fp / 10000 ≤ amount * 10000 / 10000 :=
          Nat.div_le_div_right (Nat.mul_le_mul_left amount h1)
      _ = amount := by omega
  refine ⟨hfee, ?_⟩
  unfold compute_fee checked_mul checked_div checked_sub
  rw [if_pos h2]
  dsimp only []
  rw [if_neg (by decide : ¬((10000 : Nat) = 0))]
  dsimp only []
  rw [if_pos hfee]

/-- Witness for C10: fee rate 100 on amount 10000 gives fee 100 ≤ 10000 and a
successful fee computation. -/
theorem c10_witness :
    (100 : Nat) ≤ 10000 ∧ (10000 : Nat) * 100 ≤ U64_MAX ∧
    (10000 * 100 / 10000 ≤ 10000 ∧
      compute_fee 10000 100 = .ok (10000 * 100 / 10000, 10000 - 10000 * 100 / 10000)) := by
  refine ⟨by decide, by decide, ?_⟩
  exact c10_fee_le_amount 10000 100 (by decide) (by decide)

end WzecBridge
